import Mathlib

/-!
Shallow embedding of the occupancy-grid notebook: the inverse sensor model
`inverse_scanner`, the ray-marching range simulator `get_ranges`, and the
log-odds fusion step of the main simulation loop, together with theorems
checking the specification's claims against these definitions.

Real (float) arithmetic is modelled by `ℝ`; Python's `round` and `%` are
modelled exactly (round half to even, modulo with the divisor's sign);
`math.atan2` is the standard two-argument arctangent on exact reals.
-/

namespace OccupancyGrid

open Real

noncomputable section

/-- Python 3 `round` applied to a real number, as in `int(round(x))`:
round half to even. -/
def pyround (x : ℝ) : ℤ :=
  if Int.fract x = 1 / 2 then (if Even ⌊x⌋ then ⌊x⌋ else ⌊x⌋ + 1) else round x

/-- Python float `%` on reals: `a % b = a - b * ⌊a / b⌋` (result has the
divisor's sign; for `b > 0` it lies in `[0, b)`). -/
def pmod (a b : ℝ) : ℝ := a - b * ⌊a / b⌋

/-- Value of `math.atan2 y x` in exact real arithmetic, in `[-π, π]`. -/
def atan2 (y x : ℝ) : ℝ :=
  if 0 < x then Real.arctan (y / x)
  else if x < 0 then
    (if 0 ≤ y then Real.arctan (y / x) + π else Real.arctan (y / x) - π)
  else if 0 < y then π / 2
  else if y < 0 then -(π / 2)
  else 0

/-- Rectangular numpy array of reals: a shape plus a cell function
(row index first, as `m[i, j]`). -/
structure Grid where
  rows : ℕ
  cols : ℕ
  cell : ℕ → ℕ → ℝ

/-- Elementwise unary numpy operation (covers scalar broadcasting such as
`np.subtract(1, a)` or `1 + np.exp(L)`). -/
def Grid.emap (f : ℝ → ℝ) (g : Grid) : Grid :=
  ⟨g.rows, g.cols, fun i j => f (g.cell i j)⟩

/-- Elementwise binary numpy operation on same-shape arrays. -/
def Grid.emap2 (f : ℝ → ℝ → ℝ) (a b : Grid) : Grid :=
  ⟨a.rows, a.cols, fun i j => f (a.cell i j) (b.cell i j)⟩

/-- Auxiliary loop for `np.argmin`: remaining list, index of its head,
best index so far, best value so far.  A strict `<` keeps the first
occurrence on ties, exactly as `np.argmin` does. -/
def idxMinAux : List ℝ → ℕ → ℕ → ℝ → ℕ
  | [], _, bi, _ => bi
  | a :: t, i, bi, bv =>
    if a < bv then idxMinAux t (i + 1) i a else idxMinAux t (i + 1) bi bv

/-- Index of the first minimum of a list (`np.argmin`); `0` on the empty
list (where numpy raises `ValueError`, handled by `inverse_scannerE`). -/
def idxMin : List ℝ → ℕ
  | [] => 0
  | a :: t => idxMinAux t 1 0 a

/-- Index `k` of the measured bearing nearest to `phi`:
`np.argmin(np.abs(np.subtract(phi, meas_phi)))`. -/
def nearestIdx (meas_phi : List ℝ) (phi : ℝ) : ℕ :=
  idxMin (meas_phi.map fun p => |phi - p|)

/-- Range of cell `(i, j)` relative to the pose `(x, y)`:
`math.sqrt((i - x)**2 + (j - y)**2)`. -/
def cell_range (x y : ℝ) (i j : ℕ) : ℝ :=
  Real.sqrt (((i : ℝ) - x) ^ 2 + ((j : ℝ) - y) ^ 2)

/-- Relative bearing of cell `(i, j)`:
`(math.atan2(j - y, i - x) - theta + pi) % (2 * pi) - pi`. -/
def cell_bearing (x y theta : ℝ) (i j : ℕ) : ℝ :=
  pmod (atan2 ((j : ℝ) - y) ((i : ℝ) - x) - theta + π) (2 * π) - π

/-- Classification of one cell of `inverse_scanner`, as a function of the
cell's polar coordinates `(r, phi)` relative to the pose.  The branch
structure and conditions are those of the source's `if`/`elif` chain; the
final `0` is the cell's untouched `np.zeros` value when no branch fires. -/
def classify_polar (meas_phi meas_r : List ℝ) (rmax alpha beta : ℝ)
    (r phi : ℝ) : ℝ :=
  let k := nearestIdx meas_phi phi
  if r > min rmax (meas_r.getD k 0 + alpha / 2) ∨
      |phi - meas_phi.getD k 0| > beta / 2 then 0.5
  else if meas_r.getD k 0 < rmax ∧ |r - meas_r.getD k 0| < alpha / 2 then 0.7
  else if r < meas_r.getD k 0 then 0.3
  else 0

/-- The notebook's `inverse_scanner`.  `gM`/`gN` are the module-level
globals `M`/`N` used by the allocation `m = np.zeros((M, N))` (the function
body reads the globals, not its `num_rows`/`num_cols` parameters, for the
allocation); the loops run over `range(num_rows) × range(num_cols)`, so
only cells with `i < num_rows` and `j < num_cols` are ever written. -/
def inverse_scanner (gM gN num_rows num_cols : ℕ) (x y theta : ℝ)
    (meas_phi meas_r : List ℝ) (rmax alpha beta : ℝ) : Grid :=
  ⟨gM, gN, fun i j =>
    if i < num_rows ∧ j < num_cols then
      classify_polar meas_phi meas_r rmax alpha beta
        (cell_range x y i j) (cell_bearing x y theta i j)
    else 0⟩

/-- Error conditions a call of the inverse model can end in.
`valueError` is numpy's `ValueError` from `np.argmin` on an empty array;
`indexError` is an out-of-bounds write `m[i, j]`; `invalidConfiguration`
is the spec's designed configuration-validation condition, which the
source never raises. -/
inductive PyError where
  | valueError
  | indexError
  | invalidConfiguration
  deriving DecidableEq

/-- Call of `inverse_scanner` with its failure behaviour made explicit
(assuming, as at every call site, that `meas_r` is at least as long as
`meas_phi`).  With a nonempty iteration space and empty `meas_phi`, the
first executed `np.argmin` raises `ValueError` (before any write); next,
a write outside the `np.zeros((M, N))` allocation raises `IndexError`;
otherwise the call returns the grid. -/
def inverse_scannerE (gM gN num_rows num_cols : ℕ) (x y theta : ℝ)
    (meas_phi meas_r : List ℝ) (rmax alpha beta : ℝ) : Except PyError Grid :=
  if 0 < num_rows ∧ 0 < num_cols ∧ meas_phi = [] then
    Except.error PyError.valueError
  else if 0 < num_rows ∧ gN < num_cols then Except.error PyError.indexError
  else if 0 < num_cols ∧ gM < num_rows then Except.error PyError.indexError
  else Except.ok
    (inverse_scanner gM gN num_rows num_cols x y theta meas_phi meas_r
      rmax alpha beta)

/-- Out-of-bounds test of `get_ranges` on a candidate cell:
`xi <= 0 or xi >= M-1 or yi <= 0 or yi >= N-1`. -/
def boundsFail (M N : ℕ) (xi yi : ℤ) : Prop :=
  xi ≤ 0 ∨ (M : ℤ) - 1 ≤ xi ∨ yi ≤ 0 ∨ (N : ℤ) - 1 ≤ yi

instance (M N : ℕ) (xi yi : ℤ) : Decidable (boundsFail M N xi yi) := by
  unfold boundsFail
  infer_instance

/-- Row coordinate of the candidate cell at marching step `r`:
`int(round(x + r * math.cos(theta + phi)))`. -/
def cand_x (x theta phi : ℝ) (r : ℕ) : ℤ :=
  pyround (x + (r : ℝ) * Real.cos (theta + phi))

/-- Column coordinate of the candidate cell at marching step `r`:
`int(round(y + r * math.sin(theta + phi)))`. -/
def cand_y (y theta phi : ℝ) (r : ℕ) : ℤ :=
  pyround (y + (r : ℝ) * Real.sin (theta + phi))

/-- Stop condition of the ray-marching loop at step `r`: the candidate
cell is out of bounds, or (`elif`, so only tested in bounds) the
ground-truth map holds an obstacle there. -/
def stopAt (tm : ℤ → ℤ → ℕ) (M N : ℕ) (x y theta phi : ℝ) (r : ℕ) : Prop :=
  boundsFail M N (cand_x x theta phi r) (cand_y y theta phi r) ∨
    (¬ boundsFail M N (cand_x x theta phi r) (cand_y y theta phi r) ∧
      tm (cand_x x theta phi r) (cand_y y theta phi r) = 1)

instance (tm : ℤ → ℤ → ℕ) (M N : ℕ) (x y theta phi : ℝ) :
    DecidablePred (stopAt tm M N x y theta phi) := fun _ =>
  Classical.propDecidable _

/-- The marching loop `for r in range(1, rmax + 1)` with `fuel` steps left,
current step `r`: return the first step satisfying `stop`, else the
initialisation value `rmax` (`meas_r = rmax * np.ones(...)`). -/
def marchFuel (stop : ℕ → Prop) [DecidablePred stop] (rmax : ℕ) :
    ℕ → ℕ → ℕ
  | 0, _ => rmax
  | fuel + 1, r => if stop r then r else marchFuel stop rmax fuel (r + 1)

/-- Range recorded by `get_ranges` for one bearing `phi`. -/
def scan_one (tm : ℤ → ℤ → ℕ) (M N : ℕ) (x y theta phi : ℝ) (rmax : ℕ) :
    ℕ :=
  marchFuel (stopAt tm M N x y theta phi) rmax rmax 1

/-- The notebook's `get_ranges`: one recorded range per bearing. -/
def get_ranges (tm : ℤ → ℤ → ℕ) (M N : ℕ) (x y theta : ℝ)
    (meas_phi : List ℝ) (rmax : ℕ) : List ℝ :=
  meas_phi.map fun phi => ((scan_one tm M N x y theta phi rmax : ℕ) : ℝ)

/-- One time step of the log-odds fusion of the main simulation loop:
`L = np.log(np.divide(invmod, np.subtract(1, invmod))) + L - L0` followed
by `m = np.divide(np.exp(L), 1 + np.exp(L))`; returns the new `(L, m)`. -/
def fusion_update (invmod L L0 : Grid) : Grid × Grid :=
  let Lp := Grid.emap2 (fun a b => a - b)
    (Grid.emap2 (fun a b => a + b)
      (Grid.emap Real.log
        (Grid.emap2 (fun a b => a / b) invmod
          (Grid.emap (fun p => 1 - p) invmod))) L) L0
  let mp := Grid.emap2 (fun a b => a / b) (Grid.emap Real.exp Lp)
    (Grid.emap (fun v => 1 + Real.exp v) Lp)
  (Lp, mp)

/-- Ground-truth map with no obstacle anywhere. -/
def zeroMap : ℤ → ℤ → ℕ := fun _ _ => 0

/-- Ground-truth 10×10 map whose only obstacle is the cell `(5, 5)`. -/
def oneObstacleMap : ℤ → ℤ → ℕ := fun a b => if a = 5 ∧ b = 5 then 1 else 0

/-- Ground-truth 5×5 map whose outermost one-cell ring is all obstacles. -/
def ringMap : ℤ → ℤ → ℕ := fun a b =>
  if a = 0 ∨ a = 4 ∨ b = 0 ∨ b = 4 then 1 else 0

end

/-! Basic evaluation lemmas for the numeric primitives. -/

theorem pyround_intCast (n : ℤ) : pyround ((n : ℤ) : ℝ) = n := by
  unfold pyround
  rw [Int.fract_intCast]
  norm_num

theorem pyround_eval (x : ℝ) (n : ℤ) (h : x = (n : ℝ)) : pyround x = n := by
  rw [h, pyround_intCast]

theorem pmod_eq_self (a b : ℝ) (h0 : 0 ≤ a) (hb : a < b) : pmod a b = a := by
  have hbpos : 0 < b := lt_of_le_of_lt h0 hb
  unfold pmod
  have : ⌊a / b⌋ = 0 := by
    rw [Int.floor_eq_zero_iff]
    constructor
    · exact div_nonneg h0 hbpos.le
    · rw [div_lt_one hbpos]
      exact hb
  rw [this]
  push_cast
  ring

theorem atan2_zero_pos (x : ℝ) (h : 0 < x) : atan2 0 x = 0 := by
  unfold atan2
  rw [if_pos h, zero_div, Real.arctan_zero]

theorem atan2_pos_zero (y : ℝ) (h : 0 < y) : atan2 y 0 = π / 2 := by
  unfold atan2
  rw [if_neg (lt_irrefl 0), if_neg (lt_irrefl 0), if_pos h]

theorem atan2_zero_zero : atan2 0 0 = 0 := by
  unfold atan2
  rw [if_neg (lt_irrefl 0), if_neg (lt_irrefl 0), if_neg (lt_irrefl 0),
    if_neg (lt_irrefl 0)]

/-! Lemmas about the marching loop. -/

theorem marchFuel_zero (stop : ℕ → Prop) [DecidablePred stop] (rmax r : ℕ) :
    marchFuel stop rmax 0 r = rmax := rfl

theorem marchFuel_succ (stop : ℕ → Prop) [DecidablePred stop]
    (rmax fuel r : ℕ) :
    marchFuel stop rmax (fuel + 1) r =
      if stop r then r else marchFuel stop rmax fuel (r + 1) := rfl

theorem marchFuel_of_no_stop (stop : ℕ → Prop) [DecidablePred stop]
    (rmax : ℕ) :
    ∀ fuel r, (∀ i, r ≤ i → i < r + fuel → ¬ stop i) →
      marchFuel stop rmax fuel r = rmax := by
  intro fuel
  induction fuel with
  | zero => intro r _; rfl
  | succ n ih =>
    intro r h
    rw [marchFuel_succ, if_neg (h r le_rfl (by omega))]
    exact ih (r + 1) (fun i h1 h2 => h i (by omega) (by omega))

theorem marchFuel_first_hit (stop : ℕ → Prop) [DecidablePred stop]
    (rmax : ℕ) :
    ∀ fuel r s, stop s → r ≤ s → s < r + fuel →
      (∀ i, r ≤ i → i < s → ¬ stop i) →
      marchFuel stop rmax fuel r = s := by
  intro fuel
  induction fuel with
  | zero => intro r s _ _ h2 _; omega
  | succ n ih =>
    intro r s hs hr hlt hmin
    rw [marchFuel_succ]
    by_cases h : stop r
    · have hrs : r = s := by
        by_contra hne
        exact hmin r le_rfl (by omega) h
      rw [if_pos h, hrs]
    · have hne : r ≠ s := fun he => h (he ▸ hs)
      rw [if_neg h]
      exact ih (r + 1) s hs (by omega) (by omega)
        (fun i h1 h2 => hmin i (by omega) h2)

theorem marchFuel_congr (stop stopb : ℕ → Prop) [DecidablePred stop]
    [DecidablePred stopb] (h : ∀ i, stop i ↔ stopb i) (rmax : ℕ) :
    ∀ fuel r, marchFuel stop rmax fuel r = marchFuel stopb rmax fuel r := by
  intro fuel
  induction fuel with
  | zero => intro r; rfl
  | succ n ih =>
    intro r
    rw [marchFuel_succ, marchFuel_succ, ih (r + 1)]
    exact if_congr (h r) rfl rfl

/-! The log-odds to probability transform. -/

theorem sigmoid_exp_form (t : ℝ) :
    Real.exp t / (1 + Real.exp t) = 1 / (1 + Real.exp (-t)) := by
  have h1 : (0 : ℝ) < Real.exp t := Real.exp_pos t
  have h2 : (0 : ℝ) < 1 + Real.exp t := by positivity
  have h3 : (0 : ℝ) < 1 + Real.exp (-t) := by positivity
  rw [Real.exp_neg]
  field_simp
  ring

/-! Evaluation of the classifier on a single-bearing configuration. -/

theorem classify_polar_singleton (phi0 r0 rmax alpha beta r phi : ℝ) :
    classify_polar [phi0] [r0] rmax alpha beta r phi =
      if r > min rmax (r0 + alpha / 2) ∨ |phi - phi0| > beta / 2 then 0.5
      else if r0 < rmax ∧ |r - r0| < alpha / 2 then 0.7
      else if r < r0 then 0.3
      else 0 := rfl

theorem classify_polar_eq (meas_phi meas_r : List ℝ)
    (rmax alpha beta r phi : ℝ) :
    classify_polar meas_phi meas_r rmax alpha beta r phi =
      if r > min rmax (meas_r.getD (nearestIdx meas_phi phi) 0 + alpha / 2) ∨
          |phi - meas_phi.getD (nearestIdx meas_phi phi) 0| > beta / 2 then 0.5
      else if meas_r.getD (nearestIdx meas_phi phi) 0 < rmax ∧
          |r - meas_r.getD (nearestIdx meas_phi phi) 0| < alpha / 2 then 0.7
      else if r < meas_r.getD (nearestIdx meas_phi phi) 0 then 0.3
      else 0 := rfl

theorem classify_polar_singleton_unknown (phi0 r0 rmax alpha beta r phi : ℝ)
    (h1 : r > min rmax (r0 + alpha / 2) ∨ |phi - phi0| > beta / 2) :
    classify_polar [phi0] [r0] rmax alpha beta r phi = 0.5 := by
  rw [classify_polar_singleton, if_pos h1]

theorem classify_polar_singleton_occ (phi0 r0 rmax alpha beta r phi : ℝ)
    (h1 : ¬(r > min rmax (r0 + alpha / 2) ∨ |phi - phi0| > beta / 2))
    (h2 : r0 < rmax ∧ |r - r0| < alpha / 2) :
    classify_polar [phi0] [r0] rmax alpha beta r phi = 0.7 := by
  rw [classify_polar_singleton, if_neg h1, if_pos h2]

theorem classify_polar_singleton_free (phi0 r0 rmax alpha beta r phi : ℝ)
    (h1 : ¬(r > min rmax (r0 + alpha / 2) ∨ |phi - phi0| > beta / 2))
    (h2 : ¬(r0 < rmax ∧ |r - r0| < alpha / 2))
    (h3 : r < r0) :
    classify_polar [phi0] [r0] rmax alpha beta r phi = 0.3 := by
  rw [classify_polar_singleton, if_neg h1, if_neg h2, if_pos h3]

theorem classify_polar_singleton_zero (phi0 r0 rmax alpha beta r phi : ℝ)
    (h1 : ¬(r > min rmax (r0 + alpha / 2) ∨ |phi - phi0| > beta / 2))
    (h2 : ¬(r0 < rmax ∧ |r - r0| < alpha / 2))
    (h3 : ¬(r < r0)) :
    classify_polar [phi0] [r0] rmax alpha beta r phi = 0 := by
  rw [classify_polar_singleton, if_neg h1, if_neg h2, if_neg h3]

theorem inverse_scanner_cell (gM gN nr nc : ℕ) (x y theta : ℝ)
    (mphi mr : List ℝ) (rmax alpha beta : ℝ) (i j : ℕ)
    (h : i < nr ∧ j < nc) :
    (inverse_scanner gM gN nr nc x y theta mphi mr rmax alpha beta).cell i j =
      classify_polar mphi mr rmax alpha beta (cell_range x y i j)
        (cell_bearing x y theta i j) := by
  show (if _ then _ else _) = _
  rw [if_pos h]

theorem cell_range_eval (x y : ℝ) (i j : ℕ) (v : ℝ) (h0 : 0 ≤ v)
    (h : ((i : ℝ) - x) ^ 2 + ((j : ℝ) - y) ^ 2 = v ^ 2) :
    cell_range x y i j = v := by
  unfold cell_range
  rw [h, Real.sqrt_sq h0]

theorem cell_bearing_eval (x y theta : ℝ) (i j : ℕ) (a : ℝ)
    (ha : atan2 ((j : ℝ) - y) ((i : ℝ) - x) = a)
    (h0 : 0 ≤ a - theta + π) (h1 : a - theta + π < 2 * π) :
    cell_bearing x y theta i j = a - theta := by
  unfold cell_bearing
  rw [ha, pmod_eq_self _ _ h0 h1]
  ring

/-!
Claim C2 and C3 theorems: the per-cell formula of the log-odds fusion and
the belief/log-odds invariant.
-/

/-- C2: for every inverse-model grid whose cells all lie strictly between
0 and 1, and every log-odds grid `L` and prior `L0`, the fusion step
computes per cell
`log_odds' = ln(invmod / (1 - invmod)) + log_odds - prior_log_odds` and
`belief' = exp(log_odds') / (1 + exp(log_odds'))`. -/
theorem fusion_update_formula (invmod L L0 : Grid)
    (h : ∀ i j, i < invmod.rows → j < invmod.cols →
      0 < invmod.cell i j ∧ invmod.cell i j < 1) (i j : ℕ) :
    (fusion_update invmod L L0).1.cell i j =
      Real.log (invmod.cell i j / (1 - invmod.cell i j)) +
        L.cell i j - L0.cell i j ∧
    (fusion_update invmod L L0).2.cell i j =
      Real.exp ((fusion_update invmod L L0).1.cell i j) /
        (1 + Real.exp ((fusion_update invmod L L0).1.cell i j)) := by
  constructor
  · rfl
  · rfl

/-- Witness for C2 at a concrete 1×1 configuration. -/
theorem fusion_update_formula_witness :
    (∀ i j, i < (Grid.mk 1 1 fun _ _ => 0.5).rows →
      j < (Grid.mk 1 1 fun _ _ => 0.5).cols →
      0 < (Grid.mk 1 1 fun _ _ => 0.5).cell i j ∧
        (Grid.mk 1 1 fun _ _ => 0.5).cell i j < 1) ∧
    ((fusion_update (Grid.mk 1 1 fun _ _ => 0.5)
        (Grid.mk 1 1 fun _ _ => 0) (Grid.mk 1 1 fun _ _ => 0)).1.cell 0 0 =
      Real.log ((0.5 : ℝ) / (1 - 0.5)) + 0 - 0 ∧
    (fusion_update (Grid.mk 1 1 fun _ _ => 0.5)
        (Grid.mk 1 1 fun _ _ => 0) (Grid.mk 1 1 fun _ _ => 0)).2.cell 0 0 =
      Real.exp ((fusion_update (Grid.mk 1 1 fun _ _ => 0.5)
          (Grid.mk 1 1 fun _ _ => 0) (Grid.mk 1 1 fun _ _ => 0)).1.cell 0 0) /
        (1 + Real.exp ((fusion_update (Grid.mk 1 1 fun _ _ => 0.5)
          (Grid.mk 1 1 fun _ _ => 0)
          (Grid.mk 1 1 fun _ _ => 0)).1.cell 0 0))) := by
  refine ⟨fun i j _ _ => by norm_num [Grid.cell], ?_⟩
  exact fusion_update_formula (Grid.mk 1 1 fun _ _ => 0.5)
    (Grid.mk 1 1 fun _ _ => 0) (Grid.mk 1 1 fun _ _ => 0)
    (fun i j _ _ => by norm_num [Grid.cell]) 0 0

/-- C3: after every fusion update, every cell of the new belief grid is
`1 / (1 + exp(-log_odds))` of the corresponding new log-odds cell. -/
theorem belief_logodds_invariant (invmod L L0 : Grid) (i j : ℕ) :
    (fusion_update invmod L L0).2.cell i j =
      1 / (1 + Real.exp (-(fusion_update invmod L L0).1.cell i j)) := by
  show Real.exp _ / (1 + Real.exp _) = _
  exact sigmoid_exp_form _

/-- Witness for C3 at a concrete 1×1 configuration. -/
theorem belief_logodds_invariant_witness :
    (fusion_update (Grid.mk 1 1 fun _ _ => 0.7)
        (Grid.mk 1 1 fun _ _ => 0) (Grid.mk 1 1 fun _ _ => 0)).2.cell 0 0 =
      1 / (1 + Real.exp (-(fusion_update (Grid.mk 1 1 fun _ _ => 0.7)
        (Grid.mk 1 1 fun _ _ => 0)
        (Grid.mk 1 1 fun _ _ => 0)).1.cell 0 0)) :=
  belief_logodds_invariant (Grid.mk 1 1 fun _ _ => 0.7)
    (Grid.mk 1 1 fun _ _ => 0) (Grid.mk 1 1 fun _ _ => 0) 0 0

/-!
Claim C1: the classification does not always land in {0.3, 0.5, 0.7}: a
cell angularly inside a beam, at range exactly `meas_r[k] + alpha/2`, is
matched by no branch and keeps its `np.zeros` value 0.
-/

/-- C1 failing input: a 7×7 grid, pose `(0, 0, 0)`, one bearing `0` with
measured range 5, `rmax = 10`, `alpha = 2`, `beta = 0.05`.  Cell `(6, 0)`
sits at range 6 = `meas_r[0] + alpha/2` on the beam axis and is left at 0,
a value outside {0.3, 0.5, 0.7}. -/
theorem inverse_scanner_emits_zero_cell :
    (inverse_scanner 7 7 7 7 0 0 0 [0] [5] 10 2 0.05).cell 6 0 = 0 ∧
      ¬((0 : ℝ) = 0.3 ∨ (0 : ℝ) = 0.5 ∨ (0 : ℝ) = 0.7) := by
  constructor
  · rw [inverse_scanner_cell 7 7 7 7 0 0 0 [0] [5] 10 2 0.05 6 0
      (by norm_num)]
    have hr : cell_range 0 0 6 0 = 6 :=
      cell_range_eval 0 0 6 0 6 (by norm_num) (by norm_num)
    have hb : cell_bearing 0 0 0 6 0 = 0 := by
      have h := cell_bearing_eval 0 0 0 6 0 0
        (by
          rw [show ((0 : ℕ) : ℝ) - 0 = 0 by norm_num,
            show ((6 : ℕ) : ℝ) - 0 = 6 by norm_num]
          exact atan2_zero_pos 6 (by norm_num))
        (by positivity) (by linarith [Real.pi_pos])
      rw [h]
      norm_num
    rw [hr, hb]
    apply classify_polar_singleton_zero
    · push_neg
      constructor
      · rw [show min (10 : ℝ) (5 + 2 / 2) = 6 by norm_num]
      · rw [show |(0 : ℝ) - 0| = 0 by norm_num]
        norm_num
    · intro hc
      rw [show (6 : ℝ) - 5 = 1 by norm_num] at hc
      have := hc.2
      rw [abs_one] at this
      linarith
    · norm_num
  · norm_num

/-!
Claim C6: the radial sweep of the classifier for a beam with measured
range below `rmax`, for a cell inside the beam's angular influence.
-/

/-- C6 counterexample: beam `0` with measured range 5 < rmax = 10,
`alpha = 1`, `beta = 1`, query cell on the beam axis at range
`r = 5.5 = meas_r[0] + alpha/2`: the sweep emits 0, a value outside
{0.3, 0.5, 0.7}. -/
theorem sweep_emits_zero :
    classify_polar [0] [(5 : ℝ)] 10 1 1 5.5 0 = 0 ∧
      ¬((0 : ℝ) = 0.3 ∨ (0 : ℝ) = 0.5 ∨ (0 : ℝ) = 0.7) := by
  constructor
  · apply classify_polar_singleton_zero
    · push_neg
      constructor
      · rw [show min (10 : ℝ) (5 + 1 / 2) = 5.5 by norm_num]
      · rw [show |(0 : ℝ) - 0| = 0 by norm_num]
        norm_num
    · intro hc
      have := hc.2
      rw [show (5.5 : ℝ) - 5 = 1 / 2 by norm_num,
        abs_of_pos (by norm_num : (0 : ℝ) < 1 / 2)] at this
      linarith
    · norm_num
  · norm_num

/-- C6 amended: for a beam with measured range `r0 < rmax` and a query
cell inside the beam's angular influence, the sweep over the cell's range
`r` yields: 0.3 on `r ≤ r0 - alpha/2`; 0.7 on the surface band
`|r - r0| < alpha/2` as long as `r ≤ rmax`; 0.5 beyond `rmax` and beyond
`r0 + alpha/2`; and the zero-initialised default 0 (outside
{0.3, 0.5, 0.7}) at the single radius `r = r0 + alpha/2` when that lies
within `rmax`. -/
theorem sweep_regions (meas_phi meas_r : List ℝ) (rmax alpha beta r phi : ℝ)
    (halpha : 0 < alpha)
    (hr0 : meas_r.getD (nearestIdx meas_phi phi) 0 < rmax)
    (hinf : |phi - meas_phi.getD (nearestIdx meas_phi phi) 0| ≤ beta / 2) :
    (r ≤ meas_r.getD (nearestIdx meas_phi phi) 0 - alpha / 2 →
      classify_polar meas_phi meas_r rmax alpha beta r phi = 0.3) ∧
    (|r - meas_r.getD (nearestIdx meas_phi phi) 0| < alpha / 2 → r ≤ rmax →
      classify_polar meas_phi meas_r rmax alpha beta r phi = 0.7) ∧
    (rmax < r →
      classify_polar meas_phi meas_r rmax alpha beta r phi = 0.5) ∧
    (meas_r.getD (nearestIdx meas_phi phi) 0 + alpha / 2 < r →
      classify_polar meas_phi meas_r rmax alpha beta r phi = 0.5) ∧
    (r = meas_r.getD (nearestIdx meas_phi phi) 0 + alpha / 2 → r ≤ rmax →
      classify_polar meas_phi meas_r rmax alpha beta r phi = 0) := by
  rw [classify_polar_eq]
  set r0 := meas_r.getD (nearestIdx meas_phi phi) 0 with hr0def
  set phik := meas_phi.getD (nearestIdx meas_phi phi) 0 with hpkdef
  have hnang : ¬(|phi - phik| > beta / 2) := not_lt.mpr hinf
  refine ⟨?_, ?_, ?_, ?_, ?_⟩
  · intro h1
    rw [if_neg, if_neg, if_pos (by linarith)]
    · intro hc
      have h2 := hc.2
      have : alpha / 2 ≤ |r - r0| := by
        rw [abs_sub_comm]
        exact le_abs.mpr (Or.inl (by linarith))
      linarith
    · push_neg
      refine ⟨le_min (by linarith) (by linarith), hinf⟩
  · intro h1 h2
    rw [if_neg, if_pos ⟨hr0, h1⟩]
    push_neg
    have hb := abs_lt.mp h1
    exact ⟨le_min h2 (by linarith [hb.2]), hinf⟩
  · intro h1
    rw [if_pos (Or.inl (lt_of_le_of_lt (min_le_left _ _) h1))]
  · intro h1
    rw [if_pos (Or.inl (lt_of_le_of_lt (min_le_right _ _) h1))]
  · intro h1 h2
    rw [if_neg, if_neg, if_neg (by linarith)]
    · intro hc
      have := hc.2
      rw [h1] at this
      rw [show r0 + alpha / 2 - r0 = alpha / 2 by ring,
        abs_of_pos (by linarith)] at this
      linarith
    · push_neg
      refine ⟨le_min h2 (by linarith), hinf⟩

/-- Witness for C6 at a concrete configuration: beam `[0]`, measured
ranges `[5]`, `rmax = 10`, `alpha = 1`, `beta = 1`, query range 2 on the
beam axis. -/
theorem sweep_regions_witness :
    ((0 : ℝ) < 1 ∧
      [(5 : ℝ)].getD (nearestIdx [0] 0) 0 < 10 ∧
      |(0 : ℝ) - [(0 : ℝ)].getD (nearestIdx [0] 0) 0| ≤ 1 / 2) ∧
    ((2 : ℝ) ≤ [(5 : ℝ)].getD (nearestIdx [0] 0) 0 - 1 / 2 →
      classify_polar [0] [(5 : ℝ)] 10 1 1 2 0 = 0.3) ∧
    (|(2 : ℝ) - [(5 : ℝ)].getD (nearestIdx [0] 0) 0| < 1 / 2 →
      (2 : ℝ) ≤ 10 → classify_polar [0] [(5 : ℝ)] 10 1 1 2 0 = 0.7) ∧
    ((10 : ℝ) < 2 → classify_polar [0] [(5 : ℝ)] 10 1 1 2 0 = 0.5) ∧
    ([(5 : ℝ)].getD (nearestIdx [0] 0) 0 + 1 / 2 < 2 →
      classify_polar [0] [(5 : ℝ)] 10 1 1 2 0 = 0.5) ∧
    ((2 : ℝ) = [(5 : ℝ)].getD (nearestIdx [0] 0) 0 + 1 / 2 → (2 : ℝ) ≤ 10 →
      classify_polar [0] [(5 : ℝ)] 10 1 1 2 0 = 0) := by
  have h1 : [(5 : ℝ)].getD (nearestIdx [0] 0) 0 < 10 := by
    show (5 : ℝ) < 10
    norm_num
  have h2 : |(0 : ℝ) - [(0 : ℝ)].getD (nearestIdx [0] 0) 0| ≤ 1 / 2 := by
    show |(0 : ℝ) - 0| ≤ 1 / 2
    rw [show |(0 : ℝ) - 0| = 0 by norm_num]
    norm_num
  exact ⟨⟨by norm_num, h1, h2⟩,
    sweep_regions [0] [(5 : ℝ)] 10 1 1 2 0 (by norm_num) h1 h2⟩

/-! Lemmas for `get_ranges` and the marching scenarios. -/

theorem getD_map_of_lt (f : ℝ → ℝ) :
    ∀ (l : List ℝ) (idx : ℕ), idx < l.length →
      (l.map f).getD idx 0 = f (l.getD idx 0)
  | [], idx, h => absurd h (by simp)
  | a :: t, 0, _ => rfl
  | a :: t, idx + 1, h => getD_map_of_lt f t idx (by simpa using h)

theorem get_ranges_getD (tm : ℤ → ℤ → ℕ) (M N : ℕ) (x y theta : ℝ)
    (mphi : List ℝ) (rmax idx : ℕ) (h : idx < mphi.length) :
    (get_ranges tm M N x y theta mphi rmax).getD idx 0 =
      ((scan_one tm M N x y theta (mphi.getD idx 0) rmax : ℕ) : ℝ) := by
  unfold get_ranges
  exact getD_map_of_lt _ mphi idx h

theorem cand_x_eval (x theta phi : ℝ) (r : ℕ) (n : ℤ)
    (h : x + (r : ℝ) * Real.cos (theta + phi) = (n : ℝ)) :
    cand_x x theta phi r = n :=
  pyround_eval _ n h

theorem cand_y_eval (y theta phi : ℝ) (r : ℕ) (n : ℤ)
    (h : y + (r : ℝ) * Real.sin (theta + phi) = (n : ℝ)) :
    cand_y y theta phi r = n :=
  pyround_eval _ n h

theorem stopAt_congr (tm tmb : ℤ → ℤ → ℕ) (M N : ℕ) (x y theta phi : ℝ)
    (h : ∀ a b : ℤ, 0 < a → a < (M : ℤ) - 1 → 0 < b → b < (N : ℤ) - 1 →
      tm a b = tmb a b) (r : ℕ) :
    stopAt tm M N x y theta phi r ↔ stopAt tmb M N x y theta phi r := by
  unfold stopAt
  by_cases hb : boundsFail M N (cand_x x theta phi r) (cand_y y theta phi r)
  · simp [hb]
  · have hin := hb
    unfold boundsFail at hin
    push_neg at hin
    obtain ⟨h1, h2, h3, h4⟩ := hin
    rw [h _ _ h1 h2 h3 h4]

theorem scan_one_congr (tm tmb : ℤ → ℤ → ℕ) (M N : ℕ) (x y theta phi : ℝ)
    (rmax : ℕ)
    (h : ∀ a b : ℤ, 0 < a → a < (M : ℤ) - 1 → 0 < b → b < (N : ℤ) - 1 →
      tm a b = tmb a b) :
    scan_one tm M N x y theta phi rmax = scan_one tmb M N x y theta phi rmax := by
  unfold scan_one
  exact marchFuel_congr _ _ (stopAt_congr tm tmb M N x y theta phi h) rmax rmax 1

/-!
Claim C7: a bearing with no obstacle and no out-of-bounds candidate at any
marching step records exactly `rmax`.
-/

/-- C7: if along bearing `idx` no marching step `r = 1, ..., rmax` meets an
out-of-bounds candidate cell or an obstacle cell, then `get_ranges`
records exactly `rmax` for that bearing (a real reading, the type carries
no missing value). -/
theorem scan_no_obstacle_rmax (tm : ℤ → ℤ → ℕ) (M N : ℕ) (x y theta : ℝ)
    (mphi : List ℝ) (rmax idx : ℕ) (hidx : idx < mphi.length)
    (hno : ∀ r, 1 ≤ r → r ≤ rmax →
      ¬ boundsFail M N (cand_x x theta (mphi.getD idx 0) r)
          (cand_y y theta (mphi.getD idx 0) r) ∧
        tm (cand_x x theta (mphi.getD idx 0) r)
          (cand_y y theta (mphi.getD idx 0) r) ≠ 1) :
    (get_ranges tm M N x y theta mphi rmax).getD idx 0 = (rmax : ℝ) := by
  rw [get_ranges_getD tm M N x y theta mphi rmax idx hidx]
  have : scan_one tm M N x y theta (mphi.getD idx 0) rmax = rmax := by
    unfold scan_one
    apply marchFuel_of_no_stop
    intro i h1 h2
    have hni := hno i h1 (by omega)
    rintro (hb | ⟨_, ht⟩)
    · exact hni.1 hb
    · exact hni.2 ht
  rw [this]

theorem no_stop_flat (r : ℕ) (h1 : 1 ≤ r) (h2 : r ≤ 10) :
    ¬ boundsFail 20 20 (cand_x 1 0 0 r) (cand_y 1 0 0 r) ∧
      zeroMap (cand_x 1 0 0 r) (cand_y 1 0 0 r) ≠ 1 := by
  have hx : cand_x 1 0 0 r = 1 + r := cand_x_eval 1 0 0 r (1 + r)
    (by rw [add_zero, Real.cos_zero]; push_cast; ring)
  have hy : cand_y 1 0 0 r = 1 := cand_y_eval 1 0 0 r 1
    (by rw [add_zero, Real.sin_zero]; push_cast; ring)
  rw [hx, hy]
  constructor
  · unfold boundsFail
    push_neg
    refine ⟨by omega, by omega, by omega, by omega⟩
  · unfold zeroMap
    omega

/-- Witness for C7: an all-free 20×20 map, pose `(1, 1, 0)`, one bearing
`0`, `rmax = 10`: the recorded range is exactly 10. -/
theorem scan_no_obstacle_rmax_witness :
    ((0 : ℕ) < [(0 : ℝ)].length ∧
      ∀ r, 1 ≤ r → r ≤ 10 →
        ¬ boundsFail 20 20 (cand_x 1 0 ([(0 : ℝ)].getD 0 0) r)
            (cand_y 1 0 ([(0 : ℝ)].getD 0 0) r) ∧
          zeroMap (cand_x 1 0 ([(0 : ℝ)].getD 0 0) r)
            (cand_y 1 0 ([(0 : ℝ)].getD 0 0) r) ≠ 1) ∧
    (get_ranges zeroMap 20 20 1 1 0 [0] 10).getD 0 0 = (10 : ℝ) := by
  have e : [(0 : ℝ)].getD 0 0 = 0 := rfl
  have hno : ∀ r, 1 ≤ r → r ≤ 10 →
      ¬ boundsFail 20 20 (cand_x 1 0 ([(0 : ℝ)].getD 0 0) r)
          (cand_y 1 0 ([(0 : ℝ)].getD 0 0) r) ∧
        zeroMap (cand_x 1 0 ([(0 : ℝ)].getD 0 0) r)
          (cand_y 1 0 ([(0 : ℝ)].getD 0 0) r) ≠ 1 := by
    intro r h1 h2
    rw [e]
    exact no_stop_flat r h1 h2
  exact ⟨⟨by norm_num, hno⟩,
    scan_no_obstacle_rmax zeroMap 20 20 1 1 0 [0] 10 0 (by norm_num) hno⟩

/-!
Claim C10: the ground-truth map is only consulted at candidate cells that
passed the bounds test, so the scan result is insensitive to map values on
the outermost one-cell ring (and beyond), and a beam whose candidate cell
reaches that ring stops there regardless of the map.
-/

/-- C10: (a) two ground-truth maps agreeing on the strict interior
`0 < a < M-1`, `0 < b < N-1` give identical `get_ranges` results — the map
is never inspected at the outer ring or out of bounds; (b) if the
candidate cell at step `r` fails the bounds test (as every ring cell does)
and no earlier step stopped, the recorded range for that bearing is `r`,
whatever the map holds there. -/
theorem scan_interior_only (M N : ℕ) (x y theta : ℝ) (mphi : List ℝ)
    (rmax : ℕ) :
    (∀ tm tmb : ℤ → ℤ → ℕ,
      (∀ a b : ℤ, 0 < a → a < (M : ℤ) - 1 → 0 < b → b < (N : ℤ) - 1 →
        tm a b = tmb a b) →
      get_ranges tm M N x y theta mphi rmax =
        get_ranges tmb M N x y theta mphi rmax) ∧
    (∀ (tm : ℤ → ℤ → ℕ) (phi : ℝ) (r : ℕ), 1 ≤ r → r ≤ rmax →
      (∀ s, 1 ≤ s → s < r → ¬ stopAt tm M N x y theta phi s) →
      boundsFail M N (cand_x x theta phi r) (cand_y y theta phi r) →
      scan_one tm M N x y theta phi rmax = r) := by
  constructor
  · intro tm tmb h
    unfold get_ranges
    have : (fun phi => ((scan_one tm M N x y theta phi rmax : ℕ) : ℝ)) =
        fun phi => ((scan_one tmb M N x y theta phi rmax : ℕ) : ℝ) := by
      funext phi
      rw [scan_one_congr tm tmb M N x y theta phi rmax h]
    rw [this]
  · intro tm phi r h1 h2 hmin hbf
    unfold scan_one
    exact marchFuel_first_hit _ _ rmax 1 r (Or.inl hbf) h1 (by omega) hmin

/-- Witness for C10 on a 5×5 grid from pose `(2, 2, 0)` with bearing 0 and
`rmax = 4`: filling the outer ring with obstacles does not change the scan,
and the beam stops at step 2, where its candidate cell first reaches the
ring. -/
theorem scan_interior_only_witness :
    get_ranges zeroMap 5 5 2 2 0 [0] 4 = get_ranges ringMap 5 5 2 2 0 [0] 4 ∧
      scan_one zeroMap 5 5 2 2 0 0 4 = 2 := by
  have hx : ∀ r : ℕ, cand_x 2 0 0 r = 2 + r := fun r =>
    cand_x_eval 2 0 0 r (2 + r)
      (by rw [add_zero, Real.cos_zero]; push_cast; ring)
  have hy : ∀ r : ℕ, cand_y 2 0 0 r = 2 := fun r =>
    cand_y_eval 2 0 0 r 2
      (by rw [add_zero, Real.sin_zero]; push_cast; ring)
  constructor
  · apply (scan_interior_only 5 5 2 2 0 [0] 4).1 zeroMap ringMap
    intro a b ha1 ha2 hb1 hb2
    unfold zeroMap ringMap
    rw [if_neg (by omega)]
  · apply (scan_interior_only 5 5 2 2 0 [0] 4).2 zeroMap 0 2 (by norm_num)
      (by norm_num)
    · intro s hs1 hs2
      have hs : s = 1 := by omega
      subst hs
      rintro (hb | ⟨_, ht⟩)
      · rw [hx 1, hy 1] at hb
        unfold boundsFail at hb
        omega
      · rw [hx 1, hy 1] at ht
        unfold zeroMap at ht
        omega
    · rw [hx 2, hy 2]
      unfold boundsFail
      omega

/-!
Claim C4: the belief grid driven by `inverse_scanner` outputs does not
stay strictly inside (0, 1): the inverse model can emit an exact 0 (a cell
on a beam axis at range exactly `rmax` when no obstacle was seen), whose
log-odds `ln(0/(1-0))` diverges and drives the belief cell to exactly 0.
-/

theorem no_stopAt_flat (r : ℕ) (h1 : 1 ≤ r) (h2 : r ≤ 10) :
    ¬ stopAt zeroMap 20 20 1 1 0 0 r := by
  have h := no_stop_flat r h1 h2
  rintro (hb | ⟨_, ht⟩)
  · exact h.1 hb
  · exact h.2 ht

theorem scan_flat_eval : get_ranges zeroMap 20 20 1 1 0 [0] 10 = [(10 : ℝ)] := by
  unfold get_ranges
  rw [List.map_singleton]
  have : scan_one zeroMap 20 20 1 1 0 0 10 = 10 := by
    unfold scan_one
    apply marchFuel_of_no_stop
    intro i hi1 hi2
    exact no_stopAt_flat i hi1 (by omega)
  rw [this]
  norm_num

/-- C4 failing input: all-free 20×20 map, pose `(1, 1, 0)`, one bearing
`0`, `rmax = 10`, `alpha = 1`, `beta = 0.05`.  The scan reads `[10]`, and
the inverse-model cell `(11, 1)` — on the beam axis at range exactly
`rmax` — is 0, which is not strictly inside `(0, 1)`; fusing it computes
`ln(0/(1-0))`. -/
theorem fusion_input_zero_cell :
    get_ranges zeroMap 20 20 1 1 0 [0] 10 = [(10 : ℝ)] ∧
    (inverse_scanner 20 20 20 20 1 1 0 [0]
        (get_ranges zeroMap 20 20 1 1 0 [0] 10) 10 1 0.05).cell 11 1 = 0 ∧
    (0 : ℝ) ∉ Set.Ioo (0 : ℝ) 1 := by
  refine ⟨scan_flat_eval, ?_, by simp⟩
  rw [scan_flat_eval,
    inverse_scanner_cell 20 20 20 20 1 1 0 [0] [(10 : ℝ)] 10 1 0.05 11 1
      (by omega)]
  have hr : cell_range 1 1 11 1 = 10 :=
    cell_range_eval 1 1 11 1 10 (by norm_num) (by push_cast; norm_num)
  have hb : cell_bearing 1 1 0 11 1 = 0 := by
    have h := cell_bearing_eval 1 1 0 11 1 0
      (by
        rw [show ((1 : ℕ) : ℝ) - 1 = 0 by norm_num,
          show ((11 : ℕ) : ℝ) - 1 = 10 by norm_num]
        exact atan2_zero_pos 10 (by norm_num))
      (by positivity) (by linarith [Real.pi_pos])
    rw [h]
    norm_num
  rw [hr, hb]
  apply classify_polar_singleton_zero
  · push_neg
    constructor
    · rw [show min (10 : ℝ) (10 + 1 / 2) = 10 by norm_num]
    · rw [show |(0 : ℝ) - 0| = 0 by norm_num]
      norm_num
  · intro hc
    exact absurd hc.1 (by norm_num)
  · norm_num

/-!
Claim C5: the end-to-end single-obstacle example.  The scan indeed reads
`ranges[0] = 5` and cell `(5, 5)` gets 0.7, cells `(5, 1)`–`(5, 4)` get
0.3 and cells `(5, 6)`+ get 0.5 — but the sensor's own cell `(5, 0)` gets
0.5 (its `atan2(0, 0) = 0` puts its relative bearing at `-π/2`, outside
the beam's angular window), not the claimed 0.3.
-/

theorem c5_cand_x (r : ℕ) : cand_x 5 (π / 2) 0 r = 5 :=
  cand_x_eval 5 (π / 2) 0 r 5
    (by rw [add_zero, Real.cos_pi_div_two]; push_cast; ring)

theorem c5_cand_y (r : ℕ) : cand_y 0 (π / 2) 0 r = r :=
  cand_y_eval 0 (π / 2) 0 r r
    (by rw [add_zero, Real.sin_pi_div_two]; push_cast; ring)

theorem c5_scan_eval :
    get_ranges oneObstacleMap 10 10 5 0 (π / 2) [0] 10 = [(5 : ℝ)] := by
  unfold get_ranges
  rw [List.map_singleton]
  have : scan_one oneObstacleMap 10 10 5 0 (π / 2) 0 10 = 5 := by
    unfold scan_one
    apply marchFuel_first_hit _ _ 10 1 5 _ (by norm_num) (by norm_num)
    · intro i hi1 hi2
      rw [stopAt, c5_cand_x i, c5_cand_y i]
      rintro (hb | ⟨_, ht⟩)
      · unfold boundsFail at hb
        omega
      · unfold oneObstacleMap at ht
        rw [if_neg (by omega)] at ht
        exact absurd ht (by norm_num)
    · rw [stopAt, c5_cand_x 5, c5_cand_y 5]
      refine Or.inr ⟨?_, ?_⟩
      · unfold boundsFail
        omega
      · unfold oneObstacleMap
        rw [if_pos (by omega)]
  rw [this]
  norm_num

theorem c5_range (j : ℕ) : cell_range 5 0 5 j = j :=
  cell_range_eval 5 0 5 j j (Nat.cast_nonneg j) (by push_cast; ring)

theorem c5_bearing (j : ℕ) (hj : 1 ≤ j) : cell_bearing 5 0 (π / 2) 5 j = 0 := by
  have h := cell_bearing_eval 5 0 (π / 2) 5 j (π / 2)
    (by
      rw [show ((5 : ℕ) : ℝ) - 5 = 0 by norm_num, sub_zero]
      exact atan2_pos_zero _ (by exact_mod_cast Nat.pos_of_ne_zero (by omega)))
    (by linarith [Real.pi_pos]) (by linarith [Real.pi_pos])
  rw [h]
  ring

theorem c5_bearing_origin : cell_bearing 5 0 (π / 2) 5 0 = -(π / 2) := by
  have h := cell_bearing_eval 5 0 (π / 2) 5 0 0
    (by
      rw [show ((5 : ℕ) : ℝ) - 5 = 0 by norm_num,
        show ((0 : ℕ) : ℝ) - 0 = 0 by norm_num]
      exact atan2_zero_zero)
    (by linarith [Real.pi_pos]) (by linarith [Real.pi_pos])
  rw [h]
  ring

theorem c5_cell_occ :
    (inverse_scanner 10 10 10 10 5 0 (π / 2) [0] [(5 : ℝ)] 10 1 0.05).cell 5 5
      = 0.7 := by
  rw [inverse_scanner_cell 10 10 10 10 5 0 (π / 2) [0] [(5 : ℝ)] 10 1 0.05 5 5
      (by omega), c5_range 5, c5_bearing 5 (by omega)]
  apply classify_polar_singleton_occ
  · push_neg
    constructor
    · rw [show min (10 : ℝ) (5 + 1 / 2) = 5.5 by norm_num]
      norm_num
    · rw [show |(0 : ℝ) - 0| = 0 by norm_num]
      norm_num
  · constructor
    · norm_num
    · rw [show ((5 : ℕ) : ℝ) - 5 = 0 by norm_num]
      norm_num

theorem c5_cell_free (j : ℕ) (h1 : 1 ≤ j) (h2 : j ≤ 4) :
    (inverse_scanner 10 10 10 10 5 0 (π / 2) [0] [(5 : ℝ)] 10 1 0.05).cell 5 j
      = 0.3 := by
  have hj4 : ((j : ℕ) : ℝ) ≤ 4 := by exact_mod_cast h2
  have hj1 : (1 : ℝ) ≤ ((j : ℕ) : ℝ) := by exact_mod_cast h1
  rw [inverse_scanner_cell 10 10 10 10 5 0 (π / 2) [0] [(5 : ℝ)] 10 1 0.05 5 j
      (by omega), c5_range j, c5_bearing j h1]
  apply classify_polar_singleton_free
  · push_neg
    constructor
    · rw [show min (10 : ℝ) (5 + 1 / 2) = 5.5 by norm_num]
      linarith
    · rw [show |(0 : ℝ) - 0| = 0 by norm_num]
      norm_num
  · intro hc
    have hb := hc.2
    have : (1 : ℝ) / 2 ≤ |((j : ℕ) : ℝ) - 5| :=
      le_abs.mpr (Or.inr (by linarith))
    linarith
  · linarith

theorem c5_cell_origin :
    (inverse_scanner 10 10 10 10 5 0 (π / 2) [0] [(5 : ℝ)] 10 1 0.05).cell 5 0
      = 0.5 := by
  rw [inverse_scanner_cell 10 10 10 10 5 0 (π / 2) [0] [(5 : ℝ)] 10 1 0.05 5 0
      (by omega), c5_bearing_origin]
  apply classify_polar_singleton_unknown
  refine Or.inr ?_
  rw [show -(π / 2) - 0 = -(π / 2) by ring, abs_neg,
    abs_of_pos (by positivity)]
  linarith [Real.pi_gt_three]

theorem c5_cell_far (j : ℕ) (h1 : 6 ≤ j) (h2 : j ≤ 9) :
    (inverse_scanner 10 10 10 10 5 0 (π / 2) [0] [(5 : ℝ)] 10 1 0.05).cell 5 j
      = 0.5 := by
  have hj6 : (6 : ℝ) ≤ ((j : ℕ) : ℝ) := by exact_mod_cast h1
  rw [inverse_scanner_cell 10 10 10 10 5 0 (π / 2) [0] [(5 : ℝ)] 10 1 0.05 5 j
      (by omega), c5_range j, c5_bearing j (by omega)]
  apply classify_polar_singleton_unknown
  refine Or.inl ?_
  rw [show min (10 : ℝ) (5 + 1 / 2) = 5.5 by norm_num]
  linarith

/-- C5 counterexample: in the end-to-end example (with the notebook's
`alpha = 1`, `beta = 0.05`), cell `(5, 0)` — the sensor's own cell —
classifies as 0.5, not the claimed 0.3. -/
theorem end_to_end_cell_origin_ne :
    (inverse_scanner 10 10 10 10 5 0 (π / 2) [0]
        (get_ranges oneObstacleMap 10 10 5 0 (π / 2) [0] 10)
        10 1 0.05).cell 5 0 = 0.5 ∧ (0.5 : ℝ) ≠ 0.3 := by
  rw [c5_scan_eval]
  exact ⟨c5_cell_origin, by norm_num⟩

/-- C5 amended: 10×10 grid, single obstacle at `(5, 5)`, pose
`(5, 0, π/2)`, one bearing 0, `rmax = 10`, with the notebook's `alpha = 1`
and `beta = 0.05`: `ranges[0] = 5`; the inverse-model grid assigns 0.7 to
`(5, 5)`, 0.3 to `(5, 1)`–`(5, 4)`, 0.5 to `(5, 6)`–`(5, 9)`, and 0.5
(not 0.3) to the sensor's own cell `(5, 0)`, whose relative bearing
`atan2(0,0) - π/2` wraps to `-π/2`, outside the beam's angular window. -/
theorem end_to_end_amended :
    get_ranges oneObstacleMap 10 10 5 0 (π / 2) [0] 10 = [(5 : ℝ)] ∧
    (inverse_scanner 10 10 10 10 5 0 (π / 2) [0]
        (get_ranges oneObstacleMap 10 10 5 0 (π / 2) [0] 10)
        10 1 0.05).cell 5 5 = 0.7 ∧
    (∀ j, 1 ≤ j → j ≤ 4 →
      (inverse_scanner 10 10 10 10 5 0 (π / 2) [0]
        (get_ranges oneObstacleMap 10 10 5 0 (π / 2) [0] 10)
        10 1 0.05).cell 5 j = 0.3) ∧
    (inverse_scanner 10 10 10 10 5 0 (π / 2) [0]
        (get_ranges oneObstacleMap 10 10 5 0 (π / 2) [0] 10)
        10 1 0.05).cell 5 0 = 0.5 ∧
    (∀ j, 6 ≤ j → j ≤ 9 →
      (inverse_scanner 10 10 10 10 5 0 (π / 2) [0]
        (get_ranges oneObstacleMap 10 10 5 0 (π / 2) [0] 10)
        10 1 0.05).cell 5 j = 0.5) := by
  rw [c5_scan_eval]
  exact ⟨rfl, c5_cell_occ, fun j h1 h2 => c5_cell_free j h1 h2,
    c5_cell_origin, fun j h1 h2 => c5_cell_far j h1 h2⟩

/-!
Claim C8: an empty bearing sequence makes `inverse_scanner` fail, but with
numpy's unclassified `ValueError` from `np.argmin`, not with a designed
InvalidConfiguration condition.
-/

/-- C8 counterexample: a 1×1 grid with empty bearings fails with
`ValueError`, which is not the InvalidConfiguration condition the spec
designs. -/
theorem empty_bearings_not_invalid_configuration :
    inverse_scannerE 1 1 1 1 0 0 0 [] [] 1 1 1 =
        Except.error PyError.valueError ∧
      PyError.valueError ≠ PyError.invalidConfiguration := by
  constructor
  · unfold inverse_scannerE
    rw [if_pos ⟨by norm_num, by norm_num, rfl⟩]
  · decide

/-- C8 amended: for every nonempty iteration space (at least one row and
one column), calling the inverse model with an empty bearings list fails —
with numpy's generic `ValueError` raised by `np.argmin` on an empty
sequence, not with a classified InvalidConfiguration condition. -/
theorem empty_bearings_fails (gM gN nr nc : ℕ) (x y theta : ℝ)
    (mr : List ℝ) (rmax alpha beta : ℝ) (h1 : 0 < nr) (h2 : 0 < nc) :
    inverse_scannerE gM gN nr nc x y theta [] mr rmax alpha beta =
      Except.error PyError.valueError := by
  unfold inverse_scannerE
  rw [if_pos ⟨h1, h2, rfl⟩]

/-- Witness for C8's amended theorem at a concrete configuration. -/
theorem empty_bearings_fails_witness :
    (0 : ℕ) < 2 ∧
      inverse_scannerE 3 4 2 2 0 0 0 [] [] 10 1 1 =
        Except.error PyError.valueError :=
  ⟨by norm_num,
    empty_bearings_fails 3 4 2 2 0 0 0 [] 10 1 1 (by norm_num) (by norm_num)⟩

/-!
Claim C9: the output grid's shape comes from the module-level globals
`M`, `N` (the shape of `true_map`), not from the `num_rows`/`num_cols`
parameters: `m = np.zeros((M, N))` reads the globals.
-/

/-- C9: with the notebook's globals `(M, N) = (50, 60)` and arguments
`num_rows = 2`, `num_cols = 3`, the returned grid is 50×60, not 2×3, and
cells outside the iterated 2×3 corner (such as `(5, 5)`) stay at their
`np.zeros` value 0. -/
theorem classify_shape_from_globals :
    (inverse_scanner 50 60 2 3 0 0 0 [0] [(1 : ℝ)] 10 1 1).rows = 50 ∧
    (inverse_scanner 50 60 2 3 0 0 0 [0] [(1 : ℝ)] 10 1 1).cols = 60 ∧
    ((50 : ℕ) ≠ 2 ∧ (60 : ℕ) ≠ 3) ∧
    (inverse_scanner 50 60 2 3 0 0 0 [0] [(1 : ℝ)] 10 1 1).cell 5 5 = 0 := by
  refine ⟨rfl, rfl, by omega, ?_⟩
  show (if 5 < 2 ∧ 5 < 3 then
      classify_polar [0] [(1 : ℝ)] 10 1 1 (cell_range 0 0 5 5)
        (cell_bearing 0 0 0 5 5)
    else 0) = 0
  rw [if_neg (by omega)]

end OccupancyGrid
